import Mathlib

/-!
Verification of the OFAC fuzzy-search engine (the Jaro-Winkler similarity,
field comparators, match scorer and threshold search of the fuzzy-search
utilities source file).

JS strings are modelled as `List Char`; JS number arithmetic is modelled
exactly over `ℚ` (every quantity computed by the engine is a small rational);
`Math.round` is round-half-up, modelled as `⌊q + 1/2⌋`.  Absent (`undefined`)
string fields are modelled as the empty list, matching the source's uniform
falsy-string checks.
-/

namespace OFAC

/-- JS `Math.round` on the (nonnegative) values produced by the engine:
round half away from zero toward positive infinity. -/
def jsRound (q : ℚ) : ℤ := ⌊q + 1 / 2⌋

/-- JS `toLowerCase()` on the characters of the string. -/
def jsLower (s : List Char) : List Char := s.map Char.toLower

/-! ### Jaro similarity (character matching phase) -/

/-- The JS `matchDistance = Math.floor(Math.max(len1, len2) / 2) - 1`;
an integer that is `-1` when the longer string has length 1. -/
def jaroMd (len1 len2 : ℕ) : ℤ := ((max len1 len2 : ℕ) : ℤ) / 2 - 1

/-- One candidate test of the inner matching loop of `jaroSimilarity`:
position `j` lies in the alignment window of `i`, is not yet consumed,
and the characters agree.  The window bounds reproduce the JS loop bounds
`start = max(0, i - matchDistance)`, `end = min(i + matchDistance + 1, len2)`
(the clamps are absorbed by ranging `j` over `0..len2-1`). -/
def jaroCand (x y : List Char) (md : ℤ) (used : List ℕ) (i j : ℕ) : Bool :=
  decide ((i : ℤ) - md ≤ (j : ℤ)) && decide ((j : ℤ) < (i : ℤ) + md + 1) &&
    !(used.contains j) && (x.get? i == y.get? j)

/-- The inner loop of the matching phase: the first not-yet-consumed position of
`y` in the window of `i` holding the character `x[i]`. -/
def findJ (x y : List Char) (md : ℤ) (used : List ℕ) (i : ℕ) : Option ℕ :=
  (List.range y.length).find? (jaroCand x y md used i)

/-- One iteration of the outer matching loop: try to consume a match for
position `i` of `x`, extending the list of matched pairs. -/
def jaroStep (x y : List Char) (md : ℤ) (ps : List (ℕ × ℕ)) (i : ℕ) : List (ℕ × ℕ) :=
  match findJ x y md (ps.map Prod.snd) i with
  | some j => ps ++ [(i, j)]
  | none => ps

/-- The matching loop run over positions `0..k-1` of `x`. -/
def jaroRun (x y : List Char) (md : ℤ) (k : ℕ) : List (ℕ × ℕ) :=
  (List.range k).foldl (jaroStep x y md) []

/-- The matched pairs `(i, j)` produced by the character-matching phase of
`jaroSimilarity` on already lower-cased strings `x`, `y`. -/
def jaroPairs (x y : List Char) : List (ℕ × ℕ) :=
  jaroRun x y (jaroMd x.length y.length) x.length

/-- The JS transposition count: walk the matched positions of `x` in ascending
order against the matched positions of `y` in ascending order and count the
pairs whose characters differ. -/
def jaroTranspositionCount (x y : List Char) (ps : List (ℕ × ℕ)) : ℕ :=
  (((ps.map Prod.fst).zip (List.insertionSort (· ≤ ·) (ps.map Prod.snd))).filter
    (fun q => !(x.get? q.1 == y.get? q.2))).length

/-- The `jaroSimilarity` function of the source: equality and empty-string
guards, then the average of the three ratios over the match count `m` and
transposition count `t`. -/
def jaroSimilarity (s1 s2 : List Char) : ℚ :=
  if s1 = s2 then 1
  else if s1 = [] ∨ s2 = [] then 0
  else
    let x := jsLower s1
    let y := jsLower s2
    let m := (jaroPairs x y).length
    if m = 0 then 0
    else
      ((m : ℚ) / s1.length + (m : ℚ) / s2.length +
        ((m : ℚ) - (jaroTranspositionCount x y (jaroPairs x y) : ℚ) / 2) / m) / 3

/-- Length of the common leading substring, capped by the `fuel` argument
(the source caps at 4). -/
def prefixLen4 : List Char → List Char → ℕ → ℕ
  | a :: as, b :: bs, fuel + 1 => if a = b then prefixLen4 as bs fuel + 1 else 0
  | _, _, _ => 0

/-- The `jaroWinkler` function of the source: the Jaro score boosted by the
common prefix (capped at 4 characters) scaled by `p` (the source default is
`0.1`, i.e. `1/10`). -/
def jaroWinkler (s1 s2 : List Char) (p : ℚ) : ℚ :=
  if s1 = s2 then 1
  else if s1 = [] ∨ s2 = [] then 0
  else
    let jaroScore := jaroSimilarity s1 s2
    jaroScore + (prefixLen4 (jsLower s1) (jsLower s2) 4 : ℚ) * p * (1 - jaroScore)

/-! ### Normalizer -/

/-- The whitespace class of the JS regexes used by `normalizeName`
(`\s`), restricted to the whitespace characters that can realistically occur. -/
def jsIsSpace (c : Char) : Bool :=
  c = ' ' || c = '\t' || c = '\n' || c = '\r' || c = '\x0b' || c = '\x0c' || c = '\u00a0'

/-- The per-character action of `replace(/[^a-z0-9\s]/g, " ")` on an already
lower-cased string: keep ASCII lower-case letters, digits and whitespace,
replace everything else by a space. -/
def normChar (c : Char) : Char :=
  if ('a' ≤ c ∧ c ≤ 'z') ∨ ('0' ≤ c ∧ c ≤ '9') ∨ jsIsSpace c then c else ' '

/-- The action of `replace(/\s+/g, " ")`: collapse each maximal run of
whitespace to a single space.  The boolean records whether the previous
character was part of a whitespace run. -/
def collapseAux : Bool → List Char → List Char
  | _, [] => []
  | prevSpace, c :: cs =>
    if jsIsSpace c then
      if prevSpace then collapseAux true cs else ' ' :: collapseAux true cs
    else c :: collapseAux false cs

/-- The `normalizeName` function of the source: lower-case, replace every
character that is not an ASCII lower-case letter, digit or whitespace by a
space, collapse whitespace runs, and trim. -/
def normalizeName (s : List Char) : List Char :=
  (((collapseAux false ((jsLower s).map normChar)).dropWhile jsIsSpace).reverse.dropWhile
      jsIsSpace).reverse

/-! ### Date-of-birth comparator -/

def isDigitChar (c : Char) : Bool := '0' ≤ c && c ≤ '9'

/-- The digit-only form `s.replace(/\D/g, "")`. -/
def digitsOnly (s : List Char) : List Char := s.filter isDigitChar

def digitsToNat (s : List Char) : ℕ := s.foldl (fun n c => 10 * n + (c.toNat - '0'.toNat)) 0

def parseNatDigits (s : List Char) : Option ℕ :=
  if s ≠ [] ∧ s.all isDigitChar then some (digitsToNat s) else none

/-- Split a string at every occurrence of the separator character. -/
def splitOnChar (sep : Char) : List Char → List (List Char)
  | [] => [[]]
  | c :: cs =>
    match splitOnChar sep cs with
    | [] => [[c]]
    | g :: gs => if c = sep then [] :: g :: gs else (c :: g) :: gs

/-- Modelled host function: the `new Date(string)` constructor used by
`matchDOB` (the only code deciding this behaviour that is outside the
repository).  It is restricted to the two calendar formats the engine
exercises: ISO `YYYY-MM-DD` and US `M/D/YYYY` (one- or two-digit month
and day), with months `1..12` and days `1..31`; any other input is treated
as unparseable (an Invalid Date).  It returns the `(year, month, day)`
components the code reads back via `getFullYear`/`getMonth`/`getDate`,
assuming a UTC runtime so the two formats agree; the month is kept 1-based
since only component-wise equality is ever consumed. -/
def jsParseDate (s : List Char) : Option (ℕ × ℕ × ℕ) :=
  match splitOnChar '-' s with
  | [ys, ms, ds] =>
    if ys.length = 4 ∧ ms.length = 2 ∧ ds.length = 2 then
      match parseNatDigits ys, parseNatDigits ms, parseNatDigits ds with
      | some y, some m, some d =>
        if 1 ≤ m ∧ m ≤ 12 ∧ 1 ≤ d ∧ d ≤ 31 then some (y, m, d) else none
      | _, _, _ => none
    else none
  | _ =>
    match splitOnChar '/' s with
    | [ms, ds, ys] =>
      if ys.length = 4 ∧ (ms.length = 1 ∨ ms.length = 2) ∧ (ds.length = 1 ∨ ds.length = 2) then
        match parseNatDigits ms, parseNatDigits ds, parseNatDigits ys with
        | some m, some d, some y =>
          if 1 ≤ m ∧ m ≤ 12 ∧ 1 ≤ d ∧ d ≤ 31 then some (y, m, d) else none
        | _, _, _ => none
      else none
    | _ => none

/-- The `matchDOB` function of the source: falsy guard, digit-only equality,
then calendar parsing with component-wise comparison. -/
def matchDOB (searchDOB sdnDOB : List Char) : Bool :=
  if searchDOB = [] ∨ sdnDOB = [] then false
  else if digitsOnly searchDOB = digitsOnly sdnDOB then true
  else
    match jsParseDate searchDOB, jsParseDate sdnDOB with
    | some a, some b => a == b
    | _, _ => false

/-! ### Data model -/

structure PersonName where
  firstName : List Char
  middleName : List Char
  lastName : List Char

structure AddressParts where
  address : List Char
  city : List Char
  state : List Char
  country : List Char

structure IdEntry where
  type : List Char
  number : Option (List Char)

structure SDNEntry where
  firstName : List Char
  middleName : List Char
  lastName : List Char
  dob : List Char
  address : List Char
  city : List Char
  state : List Char
  country : List Char
  ids : List IdEntry

structure SearchParams where
  firstName : List Char
  middleName : List Char
  lastName : List Char
  dob : List Char
  address : List Char
  city : List Char
  state : List Char
  country : List Char
  idNumber : List Char

structure MatchResult where
  score : ℤ
  nameScore : ℤ
  dobMatch : Bool
  addressScore : ℤ
  idMatch : Bool
  details : List (List Char)

/-! ### Name, address and overall scorers -/

/-- The `calculateNameSimilarity` function of the source.  A part score is
computed only when both normalized sides are nonempty (the JS truthiness
checks); the middle name is excluded (`null`) from both the weighted sum and
the weight denominator when either side's middle name is empty. -/
def calculateNameSimilarity (searchName sdnName : PersonName) : ℤ :=
  let nsFirst := normalizeName searchName.firstName
  let nsMiddle := normalizeName searchName.middleName
  let nsLast := normalizeName searchName.lastName
  let ndFirst := normalizeName sdnName.firstName
  let ndMiddle := normalizeName sdnName.middleName
  let ndLast := normalizeName sdnName.lastName
  let lastScore : ℚ := if nsLast ≠ [] ∧ ndLast ≠ [] then jaroWinkler nsLast ndLast (1 / 10) else 0
  let firstScore : ℚ :=
    if nsFirst ≠ [] ∧ ndFirst ≠ [] then jaroWinkler nsFirst ndFirst (1 / 10) else 0
  let middleScore : Option ℚ :=
    if nsMiddle ≠ [] ∧ ndMiddle ≠ [] then some (jaroWinkler nsMiddle ndMiddle (1 / 10)) else none
  let totalWeight : ℚ :=
    (if nsLast ≠ [] then (1 : ℚ) / 2 else 0) + (if nsFirst ≠ [] then (7 : ℚ) / 20 else 0) +
      (if middleScore.isSome then (3 : ℚ) / 20 else 0)
  let weightedScore : ℚ :=
    (if nsLast ≠ [] then lastScore * (1 / 2) else 0) +
      (if nsFirst ≠ [] then firstScore * (7 / 20) else 0) +
      (match middleScore with
       | some ms => ms * (3 / 20)
       | none => 0)
  jsRound (if totalWeight > 0 then weightedScore / totalWeight * 100 else 0)

/-- The `calculateAddressSimilarity` function of the source: country (×40),
state (×20), city (×25) and street (×15) each contribute only when both sides
supply that part; the total is rounded when at least one part was compared. -/
def calculateAddressSimilarity (searchAddr sdnAddr : AddressParts) : ℤ :=
  let countryPart : ℚ × ℕ :=
    if searchAddr.country ≠ [] ∧ sdnAddr.country ≠ [] then
      (jaroWinkler (normalizeName searchAddr.country) (normalizeName sdnAddr.country) (1 / 10) * 40,
        1)
    else (0, 0)
  let statePart : ℚ × ℕ :=
    if searchAddr.state ≠ [] ∧ sdnAddr.state ≠ [] then
      (jaroWinkler (normalizeName searchAddr.state) (normalizeName sdnAddr.state) (1 / 10) * 20, 1)
    else (0, 0)
  let cityPart : ℚ × ℕ :=
    if searchAddr.city ≠ [] ∧ sdnAddr.city ≠ [] then
      (jaroWinkler (normalizeName searchAddr.city) (normalizeName sdnAddr.city) (1 / 10) * 25, 1)
    else (0, 0)
  let streetPart : ℚ × ℕ :=
    if searchAddr.address ≠ [] ∧ sdnAddr.address ≠ [] then
      (jaroWinkler (normalizeName searchAddr.address) (normalizeName sdnAddr.address) (1 / 10) * 15,
        1)
    else (0, 0)
  let totalScore := countryPart.1 + statePart.1 + cityPart.1 + streetPart.1
  let fields := countryPart.2 + statePart.2 + cityPart.2 + streetPart.2
  if fields > 0 then jsRound totalScore else 0

def dobDetailText : List Char := "Date of birth matches".data

def idDetailText (t : List Char) : List Char := "ID number matches (".data ++ t ++ ")".data

/-- One step of the identifier scan of `calculateMatchScore`: the digit-only
form of the query identifier equals the digit-only form of the candidate
identifier (an absent candidate number is treated as the empty string, as by
the JS `id.number?.replace(/\D/g, "") || ""`). -/
def idNumberMatches (idNumber : List Char) (idEntry : IdEntry) : Bool :=
  digitsOnly idNumber ==
    (match idEntry.number with
     | some n => digitsOnly n
     | none => [])

/-- The `calculateMatchScore` function of the source: name similarity, gated
date-of-birth match, gated address similarity, first-hit identifier scan, and
the weighted overall score `min(100, round(name×0.6 + dob20 + addr×0.15 + id5))`,
together with the detail strings pushed in evaluation order. -/
def calculateMatchScore (searchParams : SearchParams) (sdnEntry : SDNEntry) : MatchResult :=
  let nameScore := calculateNameSimilarity
    ⟨searchParams.firstName, searchParams.middleName, searchParams.lastName⟩
    ⟨sdnEntry.firstName, sdnEntry.middleName, sdnEntry.lastName⟩
  let dobMatch := if searchParams.dob ≠ [] then matchDOB searchParams.dob sdnEntry.dob else false
  let addressScore :=
    if searchParams.country ≠ [] ∨ searchParams.city ≠ [] ∨ searchParams.state ≠ [] then
      calculateAddressSimilarity
        { address := searchParams.address, city := searchParams.city,
          state := searchParams.state, country := searchParams.country }
        { address := sdnEntry.address, city := sdnEntry.city,
          state := sdnEntry.state, country := sdnEntry.country }
    else 0
  let idHit : Option IdEntry :=
    if searchParams.idNumber ≠ [] then sdnEntry.ids.find? (idNumberMatches searchParams.idNumber)
    else none
  let idMatch := idHit.isSome
  let details :=
    (if dobMatch then [dobDetailText] else []) ++
      (match idHit with
       | some idEntry => [idDetailText idEntry.type]
       | none => [])
  let overall : ℚ :=
    (nameScore : ℚ) * (6 / 10) + (if dobMatch then 20 else 0) +
      (addressScore : ℚ) * (15 / 100) + (if idMatch then 5 else 0)
  { score := min 100 (jsRound overall), nameScore := nameScore, dobMatch := dobMatch,
    addressScore := addressScore, idMatch := idMatch, details := details }

/-! ### Search engine -/

structure SearchMatch where
  entry : SDNEntry
  score : ℤ
  nameScore : ℤ
  dobMatch : Bool
  addressScore : ℤ
  idMatch : Bool
  details : List (List Char)

/-- The result object `{ entry, ...matchResult }` pushed by `searchSDN`. -/
def toSearchMatch (entry : SDNEntry) (r : MatchResult) : SearchMatch :=
  ⟨entry, r.score, r.nameScore, r.dobMatch, r.addressScore, r.idMatch, r.details⟩

/-- The ordering realised by the JS comparator `(a, b) => b.score - a.score`:
`a` may stay before `b` exactly when the comparator is nonpositive. -/
def matchOrder (a b : SearchMatch) : Prop := b.score ≤ a.score

instance : DecidableRel matchOrder := fun a b => inferInstanceAs (Decidable (b.score ≤ a.score))

instance : IsTotal SearchMatch matchOrder := ⟨fun a b => le_total b.score a.score⟩

instance : IsTrans SearchMatch matchOrder := ⟨fun _ _ _ h1 h2 => le_trans h2 h1⟩

/-- The filtering loop of `searchSDN`: score every candidate in input order
and retain those whose overall score reaches the threshold. -/
def retainedMatches (searchParams : SearchParams) (sdnEntries : List SDNEntry) (threshold : ℤ) :
    List SearchMatch :=
  sdnEntries.filterMap fun entry =>
    let r := calculateMatchScore searchParams entry
    if threshold ≤ r.score then some (toSearchMatch entry r) else none

/-- The `searchSDN` function of the source.  `matches.sort((a, b) => b.score -
a.score)` is the ECMAScript-mandated stable sort under that comparator, whose
output is uniquely determined; it is realised here by the stable
`List.insertionSort` under `matchOrder`. -/
def searchSDN (searchParams : SearchParams) (sdnEntries : List SDNEntry) (threshold : ℤ) :
    List SearchMatch :=
  List.insertionSort matchOrder (retainedMatches searchParams sdnEntries threshold)

/-! ### Definition following the spec wording (refinement target for claim C3) -/

/-- Definition following the words of the spec for claim C3: the name score is
`round(weighted_sum / total_weight × 100)` where the last name contributes with
weight 0.50 and the first name with weight 0.35 whenever the query side of that
part is nonempty after normalization (an empty candidate side scoring 0 but
still counting), the middle name contributes with weight 0.15 only when both
sides' middle names are nonempty after normalization, and the result is 0 when
the total weight is 0. -/
def specNameScore (searchName sdnName : PersonName) : ℤ :=
  let ql := normalizeName searchName.lastName
  let qf := normalizeName searchName.firstName
  let qm := normalizeName searchName.middleName
  let cl := normalizeName sdnName.lastName
  let cf := normalizeName sdnName.firstName
  let cm := normalizeName sdnName.middleName
  let totalWeight : ℚ :=
    (if ql ≠ [] then (1 : ℚ) / 2 else 0) + (if qf ≠ [] then (7 : ℚ) / 20 else 0) +
      (if qm ≠ [] ∧ cm ≠ [] then (3 : ℚ) / 20 else 0)
  let weightedSum : ℚ :=
    (if ql ≠ [] then (if cl ≠ [] then jaroWinkler ql cl (1 / 10) else 0) * (1 / 2) else 0) +
      (if qf ≠ [] then (if cf ≠ [] then jaroWinkler qf cf (1 / 10) else 0) * (7 / 20) else 0) +
      (if qm ≠ [] ∧ cm ≠ [] then jaroWinkler qm cm (1 / 10) * (3 / 20) else 0)
  if totalWeight = 0 then 0 else jsRound (weightedSum / totalWeight * 100)

/-! ### Concrete data used by witnesses and counterexamples -/

def wAbc : List Char := "abc".data

def wXyz : List Char := "xyz".data

def wDobIso : List Char := "1980-05-12".data

def wDobSlash : List Char := "05/12/1980".data

def wDobIso13 : List Char := "1980-05-13".data

def wJohnSmith : PersonName :=
  { firstName := "john".data, middleName := [], lastName := "smith".data }

def wBang : PersonName := { firstName := "!".data, middleName := [], lastName := "!".data }

def wAB : List Char := "AB".data

def wLowerAb : List Char := "ab".data

def wUpperA : List Char := "A".data

def wLowerA : List Char := "a".data

def wQuery : SearchParams :=
  { firstName := "john".data, middleName := [], lastName := "smith".data,
    dob := "1975-01-01".data, address := [], city := [], state := [], country := [],
    idNumber := [] }

def wEntryJon : SDNEntry :=
  { firstName := "jon".data, middleName := [], lastName := "smith".data,
    dob := "1975-01-01".data, address := [], city := [], state := [], country := [], ids := [] }

def wEntryAlice : SDNEntry :=
  { firstName := "alice".data, middleName := [], lastName := "jones".data, dob := [],
    address := [], city := [], state := [], country := [], ids := [] }

def wStreetQuery : SearchParams :=
  { firstName := "john".data, middleName := [], lastName := "smith".data, dob := [],
    address := "123 main st".data, city := [], state := [], country := [], idNumber := [] }

def wStreetEntry : SDNEntry :=
  { firstName := "john".data, middleName := [], lastName := "smith".data, dob := [],
    address := "123 main st".data, city := [], state := [], country := [], ids := [] }

/-! ### Characterization of the greedy character matching

The analysis of `jaroPairs` (for the bounds, symmetry and identical-string
claims) goes through an explicit characterization of the matching the greedy
loop produces. -/

/-- The edge relation of the character-matching phase: positions `i` of `x`
and `j` of `y` hold equal characters and lie within the alignment window of
half width `md`. -/
def JEdge (x y : List Char) (md : ℤ) (i j : ℕ) : Prop :=
  i < x.length ∧ j < y.length ∧ x.get? i = y.get? j ∧
    (i : ℤ) - md ≤ (j : ℤ) ∧ (j : ℤ) ≤ (i : ℤ) + md

/-- The characterizing properties of the matching produced by the greedy loop
of `jaroSimilarity`: a partial matching along edges that leaves no edge with
both endpoints free, in which every matched pair took the first available
position on either side.  These properties determine the matched pairs
uniquely and are symmetric under swapping the two strings. -/
structure IsGreedyMatching (x y : List Char) (md : ℤ) (M : List (ℕ × ℕ)) : Prop where
  edges : ∀ p ∈ M, JEdge x y md p.1 p.2
  injFst : ∀ p ∈ M, ∀ q ∈ M, p.1 = q.1 → p = q
  injSnd : ∀ p ∈ M, ∀ q ∈ M, p.2 = q.2 → p = q
  maximal : ∀ i j, JEdge x y md i j → (∃ p ∈ M, p.1 = i) ∨ (∃ p ∈ M, p.2 = j)
  firstJ : ∀ p ∈ M, ∀ j < p.2, JEdge x y md p.1 j → ∃ q ∈ M, q.1 < p.1 ∧ q.2 = j
  firstI : ∀ p ∈ M, ∀ i < p.1, JEdge x y md i p.2 → ∃ q ∈ M, q.1 = i ∧ q.2 < p.2

/-! ## Basic lemmas about rounding -/

theorem jsRound_mono {a b : ℚ} (h : a ≤ b) : jsRound a ≤ jsRound b :=
  Int.floor_le_floor (by linarith)

theorem jsRound_zero : jsRound 0 = 0 := by
  rw [jsRound, Int.floor_eq_iff] <;> norm_num

theorem jsRound_hundred : jsRound 100 = 100 := by
  rw [jsRound, Int.floor_eq_iff] <;> norm_num

theorem jsRound_nonneg {q : ℚ} (h : 0 ≤ q) : 0 ≤ jsRound q := by
  have := jsRound_mono h
  rwa [jsRound_zero] at this

theorem jsRound_le_hundred {q : ℚ} (h : q ≤ 100) : jsRound q ≤ 100 := by
  have := jsRound_mono h
  rwa [jsRound_hundred] at this

/-- Rounding and clamping at 100 commute: the source clamps after rounding,
the spec clamps before rounding, and both agree. -/
theorem min_hundred_jsRound (q : ℚ) : min 100 (jsRound q) = jsRound (min 100 q) := by
  rcases le_total q 100 with h | h
  · rw [min_eq_right h, min_eq_right (jsRound_le_hundred h)]
  · rw [min_eq_left h]
    have := jsRound_mono h
    rw [jsRound_hundred] at this
    rw [min_eq_left this, jsRound_hundred]

/-! ## Projection lemmas for the match scorer -/

theorem calculateMatchScore_nameScore (sp : SearchParams) (e : SDNEntry) :
    (calculateMatchScore sp e).nameScore =
      calculateNameSimilarity ⟨sp.firstName, sp.middleName, sp.lastName⟩
        ⟨e.firstName, e.middleName, e.lastName⟩ := rfl

theorem calculateMatchScore_dobMatch (sp : SearchParams) (e : SDNEntry) :
    (calculateMatchScore sp e).dobMatch =
      (if sp.dob ≠ [] then matchDOB sp.dob e.dob else false) := rfl

theorem calculateMatchScore_addressScore (sp : SearchParams) (e : SDNEntry) :
    (calculateMatchScore sp e).addressScore =
      (if sp.country ≠ [] ∨ sp.city ≠ [] ∨ sp.state ≠ [] then
        calculateAddressSimilarity
          { address := sp.address, city := sp.city, state := sp.state, country := sp.country }
          { address := e.address, city := e.city, state := e.state, country := e.country }
      else 0) := rfl

theorem calculateMatchScore_score (sp : SearchParams) (e : SDNEntry) :
    (calculateMatchScore sp e).score =
      min 100 (jsRound (((calculateMatchScore sp e).nameScore : ℚ) * (6 / 10) +
        (if (calculateMatchScore sp e).dobMatch then 20 else 0) +
        ((calculateMatchScore sp e).addressScore : ℚ) * (15 / 100) +
        (if (calculateMatchScore sp e).idMatch then 5 else 0))) := rfl

/-- C1: for every query and candidate record, the overall score computed by
`calculateMatchScore` equals `round(min(100, nameScore*0.6 + (20 if the
date-of-birth matched else 0) + addressScore*0.15 + (5 if an identifier
matched else 0)))`, where the name and address sub-scores are the ones the
same call computed, and the returned result carries those sub-scores and
boolean flags alongside the overall score. -/
theorem calculateMatchScore_overall_formula (sp : SearchParams) (e : SDNEntry) :
    (calculateMatchScore sp e).score =
      jsRound (min 100 (((calculateMatchScore sp e).nameScore : ℚ) * (6 / 10) +
        (if (calculateMatchScore sp e).dobMatch then 20 else 0) +
        ((calculateMatchScore sp e).addressScore : ℚ) * (15 / 100) +
        (if (calculateMatchScore sp e).idMatch then 5 else 0))) ∧
    (calculateMatchScore sp e).nameScore =
      calculateNameSimilarity ⟨sp.firstName, sp.middleName, sp.lastName⟩
        ⟨e.firstName, e.middleName, e.lastName⟩ ∧
    (calculateMatchScore sp e).dobMatch =
      (if sp.dob ≠ [] then matchDOB sp.dob e.dob else false) ∧
    (calculateMatchScore sp e).addressScore =
      (if sp.country ≠ [] ∨ sp.city ≠ [] ∨ sp.state ≠ [] then
        calculateAddressSimilarity
          { address := sp.address, city := sp.city, state := sp.state, country := sp.country }
          { address := e.address, city := e.city, state := e.state, country := e.country }
      else 0) := by
  refine ⟨?_, rfl, rfl, rfl⟩
  rw [← min_hundred_jsRound]
  exact calculateMatchScore_score sp e

/-! ## Date-of-birth comparator (claims C4, C9) -/

/-- C4 (amended): `matchDOB` first strips all non-digit characters from both
inputs and returns true on exact equality of the digit-only forms (including
the degenerate case where neither side contains a digit); otherwise it
attempts calendar-date parsing of both original strings and compares the
year, month and day components for exact equality; it returns false whenever
either side is empty or absent, and, when the digit-only forms differ, it
returns false whenever either side is unparseable. -/
theorem matchDOB_characterization (a b : List Char) :
    matchDOB a b = true ↔
      a ≠ [] ∧ b ≠ [] ∧ (digitsOnly a = digitsOnly b ∨
        ∃ da db, jsParseDate a = some da ∧ jsParseDate b = some db ∧ da = db) := by
  rw [matchDOB]
  split_ifs with h1 h2
  · simp only [Bool.false_eq_true, false_iff]
    rintro ⟨ha, hb, -⟩
    rcases h1 with h | h
    · exact ha h
    · exact hb h
  · push_neg at h1
    simp [h1.1, h1.2, h2]
  · push_neg at h1
    cases hpa : jsParseDate a <;> cases hpb : jsParseDate b <;>
      simp [h1.1, h1.2, h2, hpa, hpb, beq_iff_eq]

/-- C4 counterexample: both sides are nonempty and unparseable (no calendar
format applies), yet `matchDOB` returns true, because both digit-only forms
are empty and therefore equal; the claim's clause that an unparseable side
yields false is refuted. -/
theorem matchDOB_no_digits_counterexample :
    matchDOB wAbc wXyz = true ∧ jsParseDate wAbc = none ∧ jsParseDate wXyz = none ∧
      digitsOnly wAbc = [] ∧ digitsOnly wXyz = [] ∧ wAbc ≠ [] ∧ wXyz ≠ [] := by
  decide

/-- C9: `matchDOB "1980-05-12" "05/12/1980"` returns true and
`matchDOB "1980-05-12" "1980-05-13"` returns false. -/
theorem matchDOB_examples :
    matchDOB wDobIso wDobSlash = true ∧ matchDOB wDobIso wDobIso13 = false := by
  decide

/-! ## Address gating (claim C10) -/

/-- C10: when the query's country, city and state are all empty or absent,
`calculateMatchScore` leaves the address sub-score at 0 and the overall score
receives no address contribution, even when the query supplies a street
address identical to the candidate's street address. -/
theorem addressScore_requires_region (sp : SearchParams) (e : SDNEntry)
    (hc : sp.country = []) (hci : sp.city = []) (hs : sp.state = []) :
    (calculateMatchScore sp e).addressScore = 0 ∧
    (calculateMatchScore sp e).score =
      min 100 (jsRound (((calculateMatchScore sp e).nameScore : ℚ) * (6 / 10) +
        (if (calculateMatchScore sp e).dobMatch then 20 else 0) +
        (if (calculateMatchScore sp e).idMatch then 5 else 0))) := by
  have haddr : (calculateMatchScore sp e).addressScore = 0 := by
    rw [calculateMatchScore_addressScore, if_neg]
    simp [hc, hci, hs]
  refine ⟨haddr, ?_⟩
  rw [calculateMatchScore_score, haddr]
  norm_num

/-! ## Name scorer (claim C3) -/

theorem jaroWinkler_self (s : List Char) (p : ℚ) : jaroWinkler s s p = 1 := by
  rw [jaroWinkler, if_pos rfl]

theorem jsRound_eq_hundred {q : ℚ} (h : q = 100) : jsRound q = 100 := by
  rw [h, jsRound_hundred]

/-- C3 (amended): `calculateNameSimilarity` returns
`round(weighted_sum / total_weight * 100)` with last weight 0.50 and first
weight 0.35 counted whenever the query side of the part is nonempty after
normalization (a candidate-side empty part scoring 0 but still counting),
middle weight 0.15 counted only when both sides' middle names are nonempty
after normalization, and 0 when the total weight is 0; identical first and
last names on both sides with no middle name on either side yield 100
provided at least one of the identical parts is nonempty after
normalization. -/
theorem calculateNameSimilarity_weighted_formula (sn dn : PersonName) :
    calculateNameSimilarity sn dn = specNameScore sn dn ∧
    (sn.firstName = dn.firstName → sn.lastName = dn.lastName →
      normalizeName sn.middleName = [] → normalizeName dn.middleName = [] →
      (normalizeName sn.lastName ≠ [] ∨ normalizeName sn.firstName ≠ []) →
      calculateNameSimilarity sn dn = 100) := by
  constructor
  · by_cases hql : normalizeName sn.lastName = [] <;>
      by_cases hqf : normalizeName sn.firstName = [] <;>
      by_cases hcl : normalizeName dn.lastName = [] <;>
      by_cases hcf : normalizeName dn.firstName = [] <;>
      by_cases hqm : normalizeName sn.middleName = [] <;>
      by_cases hcm : normalizeName dn.middleName = [] <;>
      simp [calculateNameSimilarity, specNameScore, hql, hqf, hcl, hcf, hqm, hcm,
        jsRound_zero] <;>
      norm_num [jsRound_zero]
  · intro hf hl hqm hcm hne
    by_cases hql : normalizeName sn.lastName = []
    · have hqf : normalizeName sn.firstName ≠ [] := by
        rcases hne with h | h
        · exact absurd hql h
        · exact h
      simp [calculateNameSimilarity, ← hf, ← hl, hqm, hcm, hql, hqf, jaroWinkler_self]
      exact jsRound_eq_hundred (by norm_num)
    · by_cases hqf : normalizeName sn.firstName = []
      · simp [calculateNameSimilarity, ← hf, ← hl, hqm, hcm, hql, hqf, jaroWinkler_self]
        exact jsRound_eq_hundred (by norm_num)
      · simp [calculateNameSimilarity, ← hf, ← hl, hqm, hcm, hql, hqf, jaroWinkler_self]
        exact jsRound_eq_hundred (by norm_num)

/-- Witness for C3 at identical nonempty first and last names with no middle
name on either side. -/
theorem calculateNameSimilarity_weighted_formula_witness :
    calculateNameSimilarity wJohnSmith wJohnSmith = 100 :=
  (calculateNameSimilarity_weighted_formula wJohnSmith wJohnSmith).2 rfl rfl
    (by decide) (by decide) (by decide)

/-- C3 counterexample: the first and last names are identical on both sides
(the string consisting of a single exclamation mark) and no middle name is
present, yet the score is 0, not 100: both parts normalize to the empty
string, so the total weight is 0 and the zero branch of the claim's own
formula applies. -/
theorem calculateNameSimilarity_identical_counterexample :
    calculateNameSimilarity wBang wBang = 0 ∧ calculateNameSimilarity wBang wBang ≠ 100 ∧
      wBang.firstName = wBang.firstName ∧ wBang.lastName = wBang.lastName ∧
      wBang.middleName = [] := by
  have h0 : calculateNameSimilarity wBang wBang = 0 := by
    have hb : normalizeName ("!".data) = ([] : List Char) := by decide
    have hnil : normalizeName ([] : List Char) = ([] : List Char) := by decide
    simp [calculateNameSimilarity, wBang, hb, hnil, jsRound_zero]
  exact ⟨h0, by rw [h0]; decide, rfl, rfl, rfl⟩

/-! ## Search engine: thresholding, monotonicity, ordering, stability -/

theorem mem_searchSDN {sp : SearchParams} {entries : List SDNEntry} {t : ℤ}
    {m : SearchMatch} : m ∈ searchSDN sp entries t ↔ m ∈ retainedMatches sp entries t := by
  unfold searchSDN
  exact List.mem_insertionSort matchOrder

theorem mem_retainedMatches {sp : SearchParams} {entries : List SDNEntry} {t : ℤ}
    {m : SearchMatch} :
    m ∈ retainedMatches sp entries t ↔
      ∃ e ∈ entries, t ≤ (calculateMatchScore sp e).score ∧
        m = toSearchMatch e (calculateMatchScore sp e) := by
  unfold retainedMatches
  rw [List.mem_filterMap]
  constructor
  · rintro ⟨e, he, hf⟩
    dsimp only at hf
    by_cases hc : t ≤ (calculateMatchScore sp e).score
    · rw [if_pos hc] at hf
      exact ⟨e, he, hc, (Option.some.inj hf).symm⟩
    · rw [if_neg hc] at hf
      cases hf
  · rintro ⟨e, he, hc, rfl⟩
    refine ⟨e, he, ?_⟩
    dsimp only
    rw [if_pos hc]

/-- C2: `searchSDN` returns only candidates whose computed overall score is at
least the threshold, and for thresholds `t1 ≤ t2` on the same query and
candidates the result set at `t2` is a subset of the result set at `t1`. -/
theorem searchSDN_threshold_monotone (sp : SearchParams) (entries : List SDNEntry)
    (t1 t2 : ℤ) (h : t1 ≤ t2) :
    (∀ m ∈ searchSDN sp entries t1, t1 ≤ m.score ∧
      m.score = (calculateMatchScore sp m.entry).score) ∧
    (∀ m ∈ searchSDN sp entries t2, m ∈ searchSDN sp entries t1) := by
  constructor
  · intro m hm
    rw [mem_searchSDN, mem_retainedMatches] at hm
    obtain ⟨e, -, hc, rfl⟩ := hm
    exact ⟨hc, rfl⟩
  · intro m hm
    rw [mem_searchSDN, mem_retainedMatches] at hm ⊢
    obtain ⟨e, he, hc, rfl⟩ := hm
    exact ⟨e, he, le_trans h hc, rfl⟩

/-- Witness for C2 at the concrete query and candidate list, with thresholds
80 and 85. -/
theorem searchSDN_threshold_monotone_witness :
    (∀ m ∈ searchSDN wQuery [wEntryJon, wEntryAlice] 80, 80 ≤ m.score ∧
      m.score = (calculateMatchScore wQuery m.entry).score) ∧
    (∀ m ∈ searchSDN wQuery [wEntryJon, wEntryAlice] 85,
      m ∈ searchSDN wQuery [wEntryJon, wEntryAlice] 80) :=
  searchSDN_threshold_monotone wQuery [wEntryJon, wEntryAlice] 80 85 (by decide)

theorem filter_score_orderedInsert (s : ℤ) (a : SearchMatch) (l : List SearchMatch) :
    (List.orderedInsert matchOrder a l).filter (fun m => m.score == s) =
      if a.score == s then a :: l.filter (fun m => m.score == s)
      else l.filter (fun m => m.score == s) := by
  induction l with
  | nil =>
    by_cases pa : (a.score == s) = true <;>
      simp [List.orderedInsert, List.filter, pa]
  | cons b bs ih =>
    rw [List.orderedInsert]
    by_cases hr : matchOrder a b
    · rw [if_pos hr]
      by_cases pa : (a.score == s) = true <;> simp [List.filter_cons, pa]
    · rw [if_neg hr]
      have hlt : a.score < b.score := by
        simp only [matchOrder, not_le] at hr
        exact hr
      by_cases pa : (a.score == s) = true
      · have pb : (b.score == s) = false := by
          rw [beq_iff_eq] at pa
          rw [beq_eq_false_iff_ne]
          omega
        simp [List.filter_cons, ih, pa, pb]
      · rw [Bool.not_eq_true] at pa
        simp [List.filter_cons, ih, pa]

theorem filter_score_insertionSort (s : ℤ) (l : List SearchMatch) :
    (List.insertionSort matchOrder l).filter (fun m => m.score == s) =
      l.filter (fun m => m.score == s) := by
  induction l with
  | nil => rfl
  | cons a l ih =>
    rw [List.insertionSort, filter_score_orderedInsert, ih]
    by_cases pa : (a.score == s) = true <;> simp [List.filter_cons, pa]

/-- C6: in the list `searchSDN` returns, any result appearing before another
has a score at least as large, and results with equal scores retain their
relative order from the retained in-input-order candidate scan (the sort is
stable). -/
theorem searchSDN_sorted_stable (sp : SearchParams) (entries : List SDNEntry) (t : ℤ) :
    List.Pairwise (fun a b : SearchMatch => b.score ≤ a.score) (searchSDN sp entries t) ∧
    ∀ s : ℤ, (searchSDN sp entries t).filter (fun m => m.score == s) =
      (retainedMatches sp entries t).filter (fun m => m.score == s) := by
  constructor
  · exact List.sorted_insertionSort matchOrder (retainedMatches sp entries t)
  · intro s
    exact filter_score_insertionSort s (retainedMatches sp entries t)

/-- Witness for C10 at a concrete query whose street address is nonempty and
identical to the candidate's street address while country, city and state are
empty. -/
theorem addressScore_requires_region_witness :
    (wStreetQuery.country = [] ∧ wStreetQuery.city = [] ∧ wStreetQuery.state = [] ∧
      wStreetQuery.address = wStreetEntry.address ∧ wStreetQuery.address ≠ []) ∧
    (calculateMatchScore wStreetQuery wStreetEntry).addressScore = 0 ∧
    (calculateMatchScore wStreetQuery wStreetEntry).score =
      min 100 (jsRound (((calculateMatchScore wStreetQuery wStreetEntry).nameScore : ℚ) *
        (6 / 10) +
        (if (calculateMatchScore wStreetQuery wStreetEntry).dobMatch then 20 else 0) +
        (if (calculateMatchScore wStreetQuery wStreetEntry).idMatch then 5 else 0))) :=
  ⟨⟨rfl, rfl, rfl, rfl, by decide⟩,
    addressScore_requires_region wStreetQuery wStreetEntry rfl rfl rfl⟩

/-! ## Properties of the greedy matching run -/

theorem jaroCand_eq_true {x y : List Char} {md : ℤ} {used : List ℕ} {i j : ℕ} :
    jaroCand x y md used i j = true ↔
      ((i : ℤ) - md ≤ (j : ℤ) ∧ (j : ℤ) < (i : ℤ) + md + 1 ∧ j ∉ used ∧
        x.get? i = y.get? j) := by
  simp [jaroCand, and_assoc, List.elem_iff]

theorem jaroRun_succ (x y : List Char) (md : ℤ) (k : ℕ) :
    jaroRun x y md (k + 1) = jaroStep x y md (jaroRun x y md k) k := by
  rw [jaroRun, jaroRun, List.range_succ, List.foldl_append, List.foldl_cons, List.foldl_nil]

theorem jaroRun_zero (x y : List Char) (md : ℤ) : jaroRun x y md 0 = [] := rfl

theorem mem_jaroStep {x y : List Char} {md : ℤ} {ps : List (ℕ × ℕ)} {i : ℕ} {p : ℕ × ℕ}
    (hp : p ∈ jaroStep x y md ps i) :
    p ∈ ps ∨ (p.1 = i ∧ findJ x y md (ps.map Prod.snd) i = some p.2) := by
  unfold jaroStep at hp
  cases hf : findJ x y md (ps.map Prod.snd) i with
  | none => rw [hf] at hp; exact Or.inl hp
  | some j =>
    rw [hf] at hp
    rcases List.mem_append.mp hp with h | h
    · exact Or.inl h
    · rcases List.mem_singleton.mp h with rfl
      exact Or.inr ⟨rfl, by simpa using hf⟩

theorem findJ_some {x y : List Char} {md : ℤ} {used : List ℕ} {i j : ℕ}
    (hf : findJ x y md used i = some j) :
    j < y.length ∧ jaroCand x y md used i j = true := by
  unfold findJ at hf
  exact ⟨List.mem_range.mp (List.mem_of_find?_eq_some hf), List.find?_some hf⟩

theorem find?_first_of_pairwise {p : ℕ → Bool} {a : ℕ} :
    ∀ {l : List ℕ}, l.Pairwise (· < ·) → l.find? p = some a →
      ∀ b ∈ l, b < a → p b = false := by
  intro l
  induction l with
  | nil => intro _ hf; cases hf
  | cons c cs ih =>
    intro hl hf b hb hba
    rcases List.pairwise_cons.mp hl with ⟨hc1, hc2⟩
    cases hc : p c with
    | true =>
      rw [List.find?_cons_of_pos _ hc] at hf
      have hac : c = a := Option.some.inj hf
      rcases List.mem_cons.mp hb with rfl | hbm
      · omega
      · have := hc1 b hbm
        omega
    | false =>
      rw [List.find?_cons_of_neg _ (by simp [hc])] at hf
      rcases List.mem_cons.mp hb with rfl | hbm
      · exact hc
      · exact ih hc2 hf b hbm hba

theorem findJ_first {x y : List Char} {md : ℤ} {used : List ℕ} {i j : ℕ}
    (hf : findJ x y md used i = some j) :
    ∀ j' < j, jaroCand x y md used i j' = false := by
  intro j' hj'
  have hjy : j < y.length := (findJ_some hf).1
  exact find?_first_of_pairwise (List.pairwise_lt_range _) hf j'
    (List.mem_range.mpr (lt_trans hj' hjy)) hj'

theorem findJ_none {x y : List Char} {md : ℤ} {used : List ℕ} {i : ℕ}
    (hf : findJ x y md used i = none) :
    ∀ j < y.length, jaroCand x y md used i j = false := by
  intro j hj
  have := List.find?_eq_none.mp hf j (List.mem_range.mpr hj)
  simpa using this

/-- Combined well-formedness invariant of the matching run: every matched pair
is an in-window equal-character pair with first component below the step
counter, first components are strictly increasing, and second components are
pairwise distinct. -/
theorem jaroRun_wf (x y : List Char) (md : ℤ) (k : ℕ) :
    (∀ p ∈ jaroRun x y md k, p.1 < k ∧ p.2 < y.length ∧ x.get? p.1 = y.get? p.2 ∧
      (p.1 : ℤ) - md ≤ (p.2 : ℤ) ∧ (p.2 : ℤ) ≤ (p.1 : ℤ) + md) ∧
    List.Pairwise (fun p q : ℕ × ℕ => p.1 < q.1) (jaroRun x y md k) ∧
    ((jaroRun x y md k).map Prod.snd).Nodup := by
  induction k with
  | zero => refine ⟨?_, ?_, ?_⟩ <;> simp [jaroRun_zero]
  | succ k ih =>
    obtain ⟨iha, ihb, ihc⟩ := ih
    rw [jaroRun_succ]
    unfold jaroStep
    cases hf : findJ x y md ((jaroRun x y md k).map Prod.snd) k with
    | none =>
      refine ⟨fun p hp => ?_, ihb, ihc⟩
      obtain ⟨h1, h2⟩ := iha p hp
      exact ⟨Nat.lt_succ_of_lt h1, h2⟩
    | some j =>
      obtain ⟨hjy, hc⟩ := findJ_some hf
      rw [jaroCand_eq_true] at hc
      obtain ⟨hw1, hw2, hju, hch⟩ := hc
      refine ⟨?_, ?_, ?_⟩
      · intro p hp
        rcases List.mem_append.mp hp with h | h
        · obtain ⟨h1, h2⟩ := iha p h
          exact ⟨Nat.lt_succ_of_lt h1, h2⟩
        · rcases List.mem_singleton.mp h with rfl
          exact ⟨Nat.lt_succ_self k, hjy, hch, hw1, by omega⟩
      · rw [List.pairwise_append]
        refine ⟨ihb, List.pairwise_singleton _ _, ?_⟩
        intro p hp q hq
        rcases List.mem_singleton.mp hq with rfl
        exact (iha p hp).1
      · rw [List.map_append, List.nodup_append]
        refine ⟨ihc, List.nodup_singleton _, ?_⟩
        intro a ha
        simp only [List.map_cons, List.map_nil, List.mem_singleton]
        intro haj
        exact hju (haj ▸ ha)

theorem jaroRun_mono {x y : List Char} {md : ℤ} {k : ℕ} :
    ∀ {k' : ℕ}, k ≤ k' → ∀ p ∈ jaroRun x y md k, p ∈ jaroRun x y md k' := by
  intro k'
  induction k' with
  | zero =>
    intro h p hp
    rw [Nat.le_zero.mp h] at hp
    exact hp
  | succ k' ih =>
    intro h p hp
    by_cases h' : k ≤ k'
    · have hp' := ih h' p hp
      rw [jaroRun_succ]
      unfold jaroStep
      cases findJ x y md ((jaroRun x y md k').map Prod.snd) k' with
      | none => exact hp'
      | some j => exact List.mem_append_left _ hp'
    · have hk : k = k' + 1 := by omega
      rw [← hk]
      exact hp

/-- Every matched pair was produced by the step at its own first component. -/
theorem jaroRun_step_of_mem {x y : List Char} {md : ℤ} {k : ℕ} :
    ∀ p ∈ jaroRun x y md k,
      findJ x y md ((jaroRun x y md p.1).map Prod.snd) p.1 = some p.2 := by
  induction k with
  | zero => intro p hp; simp [jaroRun_zero] at hp
  | succ k ih =>
    intro p hp
    rw [jaroRun_succ] at hp
    rcases mem_jaroStep hp with h | ⟨h1, h2⟩
    · exact ih p h
    · rw [h1]
      exact h2

theorem jaroRun_mem_of_findJ {x y : List Char} {md : ℤ} {i j k : ℕ} (hik : i < k)
    (hf : findJ x y md ((jaroRun x y md i).map Prod.snd) i = some j) :
    (i, j) ∈ jaroRun x y md k := by
  have h1 : (i, j) ∈ jaroRun x y md (i + 1) := by
    rw [jaroRun_succ]
    unfold jaroStep
    rw [hf]
    exact List.mem_append_right _ (List.mem_singleton_self _)
  exact jaroRun_mono hik (i, j) h1

/-- A matched pair already belongs to every run that goes past its own step. -/
theorem jaroRun_mem_early {x y : List Char} {md : ℤ} {k : ℕ} {p : ℕ × ℕ}
    (hp : p ∈ jaroRun x y md k) {m : ℕ} (hm : p.1 < m) :
    p ∈ jaroRun x y md m := by
  have hf := jaroRun_step_of_mem p hp
  have := jaroRun_mem_of_findJ hm hf
  simpa using this

/-- The matching produced by the greedy loop satisfies the characterizing
properties. -/
theorem jaroRun_isGreedyMatching (x y : List Char) (md : ℤ) :
    IsGreedyMatching x y md (jaroRun x y md x.length) := by
  obtain ⟨hwf, hpw, hnd⟩ := jaroRun_wf x y md x.length
  have husedTo : ∀ {i j : ℕ}, i ≤ x.length → j ∈ (jaroRun x y md i).map Prod.snd →
      ∃ q ∈ jaroRun x y md x.length, q.2 = j ∧ q.1 < i := by
    intro i j hi hj
    obtain ⟨q, hq, hqj⟩ := List.mem_map.mp hj
    have hq1 : q.1 < i := ((jaroRun_wf x y md i).1 q hq).1
    exact ⟨q, jaroRun_mem_early hq (lt_of_lt_of_le hq1 hi), hqj, hq1⟩
  have hinjS : ∀ p ∈ jaroRun x y md x.length, ∀ q ∈ jaroRun x y md x.length,
      p.2 = q.2 → p = q := by
    intro p hp q hq hpq
    exact List.inj_on_of_nodup_map hnd hp hq hpq
  refine ⟨?_, ?_, hinjS, ?_, ?_, ?_⟩
  · intro p hp
    obtain ⟨h1, h2, h3, h4, h5⟩ := hwf p hp
    exact ⟨h1, h2, h3, h4, h5⟩
  · intro p hp q hq hpq
    have hne : List.Pairwise (fun p q : ℕ × ℕ => p.1 ≠ q.1) (jaroRun x y md x.length) :=
      hpw.imp fun h => Nat.ne_of_lt h
    by_contra hne'
    exact (hne.forall (fun p q h => Ne.symm h) hp hq hne') hpq
  · intro i j hij
    by_cases hi : ∃ p ∈ jaroRun x y md x.length, p.1 = i
    · exact Or.inl hi
    · right
      push_neg at hi
      have hix : i < x.length := hij.1
      have hfn : findJ x y md ((jaroRun x y md i).map Prod.snd) i = none := by
        cases hf : findJ x y md ((jaroRun x y md i).map Prod.snd) i with
        | none => rfl
        | some j' => exact absurd rfl (hi (i, j') (jaroRun_mem_of_findJ hix hf))
      have hcand := findJ_none hfn j hij.2.1
      have hjused : j ∈ (jaroRun x y md i).map Prod.snd := by
        by_contra hju
        have hct : jaroCand x y md ((jaroRun x y md i).map Prod.snd) i j = true := by
          rw [jaroCand_eq_true]
          refine ⟨hij.2.2.2.1, ?_, hju, hij.2.2.1⟩
          have := hij.2.2.2.2
          omega
        rw [hct] at hcand
        cases hcand
      obtain ⟨q, hq, hqj, -⟩ := husedTo (le_of_lt hix) hjused
      exact ⟨q, hq, hqj⟩
  · intro p hp j hjlt hedge
    have hf := jaroRun_step_of_mem p hp
    have hcf := findJ_first hf j hjlt
    have hp1x : p.1 < x.length := (hwf p hp).1
    have hjused : j ∈ (jaroRun x y md p.1).map Prod.snd := by
      by_contra hju
      have hct : jaroCand x y md ((jaroRun x y md p.1).map Prod.snd) p.1 j = true := by
        rw [jaroCand_eq_true]
        refine ⟨hedge.2.2.2.1, ?_, hju, hedge.2.2.1⟩
        have := hedge.2.2.2.2
        omega
      rw [hct] at hcf
      cases hcf
    obtain ⟨q, hq, hqj, hqlt⟩ := husedTo (le_of_lt hp1x) hjused
    exact ⟨q, hq, hqlt, hqj⟩
  · intro p hp i hilt hedge
    have hix : i < x.length := hedge.1
    have hnotused : p.2 ∉ (jaroRun x y md i).map Prod.snd := by
      intro hmem
      obtain ⟨q, hq, hqj, hqlt⟩ := husedTo (le_of_lt hix) hmem
      have hqp : q = p := hinjS q hq p hp hqj
      rw [hqp] at hqlt
      omega
    cases hf : findJ x y md ((jaroRun x y md i).map Prod.snd) i with
    | none =>
      have hcand := findJ_none hf p.2 hedge.2.1
      have hct : jaroCand x y md ((jaroRun x y md i).map Prod.snd) i p.2 = true := by
        rw [jaroCand_eq_true]
        refine ⟨hedge.2.2.2.1, ?_, hnotused, hedge.2.2.1⟩
        have := hedge.2.2.2.2
        omega
      rw [hct] at hcand
      cases hcand
    | some jj =>
      have hmem' : (i, jj) ∈ jaroRun x y md x.length := jaroRun_mem_of_findJ hix hf
      have hnejj : jj ≠ p.2 := by
        intro he
        have : (i, jj) = p := hinjS (i, jj) hmem' p hp (by simpa using he)
        rw [← this] at hilt
        simp at hilt
      have hle : jj ≤ p.2 := by
        by_contra hgt
        push_neg at hgt
        have hcf := findJ_first hf p.2 hgt
        have hct : jaroCand x y md ((jaroRun x y md i).map Prod.snd) i p.2 = true := by
          rw [jaroCand_eq_true]
          refine ⟨hedge.2.2.2.1, ?_, hnotused, hedge.2.2.1⟩
          have := hedge.2.2.2.2
          omega
        rw [hct] at hcf
        cases hcf
      exact ⟨(i, jj), hmem', rfl, lt_of_le_of_ne hle hnejj⟩

/-- The characterizing properties determine the matched pair set uniquely. -/
theorem isGreedyMatching_unique {x y : List Char} {md : ℤ} {M1 M2 : List (ℕ × ℕ)}
    (h1 : IsGreedyMatching x y md M1) (h2 : IsGreedyMatching x y md M2) :
    ∀ p : ℕ × ℕ, p ∈ M1 ↔ p ∈ M2 := by
  suffices H : ∀ i : ℕ, ∀ A B : List (ℕ × ℕ), IsGreedyMatching x y md A →
      IsGreedyMatching x y md B →
      (∀ i' < i, ∀ j, (i', j) ∈ A ↔ (i', j) ∈ B) → ∀ j, (i, j) ∈ A → (i, j) ∈ B by
    have main : ∀ i j : ℕ, (i, j) ∈ M1 ↔ (i, j) ∈ M2 := by
      intro i
      induction i using Nat.strong_induction_on with
      | _ i ih =>
        intro j
        constructor
        · exact H i M1 M2 h1 h2 (fun i' hi' j' => ih i' hi' j') j
        · exact H i M2 M1 h2 h1 (fun i' hi' j' => (ih i' hi' j').symm) j
    intro p
    have := main p.1 p.2
    simpa using this
  intro i A B hA hB ih j hj
  by_cases hmatched : ∃ j2, (i, j2) ∈ B
  · obtain ⟨j2, hj2⟩ := hmatched
    rcases lt_trichotomy j2 j with hlt | heq | hgt
    · have hedge2 : JEdge x y md i j2 := hB.edges _ hj2
      obtain ⟨q, hq, hq1, hq2⟩ := hA.firstJ (i, j) hj j2 hlt hedge2
      have hqB : (q.1, q.2) ∈ B := (ih q.1 hq1 q.2).mp (by simpa using hq)
      have heqq : (q.1, q.2) = (i, j2) := hB.injSnd _ hqB _ hj2 (by simpa using hq2)
      have : q.1 = i := congrArg Prod.fst heqq
      omega
    · exact heq ▸ hj2
    · have hedgeA : JEdge x y md i j := hA.edges _ hj
      obtain ⟨q, hq, hq1, hq2⟩ := hB.firstJ (i, j2) hj2 j hgt hedgeA
      have hqA : (q.1, q.2) ∈ A := (ih q.1 hq1 q.2).mpr (by simpa using hq)
      have heqq : (q.1, q.2) = (i, j) := hA.injSnd _ hqA _ hj (by simpa using hq2)
      have : q.1 = i := congrArg Prod.fst heqq
      omega
  · push_neg at hmatched
    by_cases hjm : ∃ i2, (i2, j) ∈ B
    · obtain ⟨i2, hi2⟩ := hjm
      rcases lt_trichotomy i2 i with hlt | heq | hgt
      · have hA2 : (i2, j) ∈ A := (ih i2 hlt j).mpr hi2
        have heqq : ((i2 : ℕ), j) = (i, j) := hA.injSnd _ hA2 _ hj rfl
        have : i2 = i := congrArg Prod.fst heqq
        omega
      · exact absurd (heq ▸ hi2) (hmatched j)
      · have hedgeA : JEdge x y md i j := hA.edges _ hj
        obtain ⟨q, hq, hq1, hq2⟩ := hB.firstI (i2, j) hi2 i hgt hedgeA
        have : (i, q.2) ∈ B := by
          rw [← hq1]
          simpa using hq
        exact absurd this (hmatched q.2)
    · push_neg at hjm
      have hedgeA : JEdge x y md i j := hA.edges _ hj
      rcases hB.maximal i j hedgeA with ⟨p, hp, hp1⟩ | ⟨p, hp, hp2⟩
      · have : (i, p.2) ∈ B := by
          rw [← hp1]
          simpa using hp
        exact absurd this (hmatched p.2)
      · have : (p.1, j) ∈ B := by
          rw [← hp2]
          simpa using hp
        exact absurd this (hjm p.1)

theorem JEdge_swap {x y : List Char} {md : ℤ} {i j : ℕ} (h : JEdge x y md i j) :
    JEdge y x md j i := by
  obtain ⟨h1, h2, h3, h4, h5⟩ := h
  refine ⟨h2, h1, h3.symm, by omega, by omega⟩

/-- The characterizing properties are symmetric: mirroring a greedy matching
of `(x, y)` gives a greedy matching of `(y, x)`. -/
theorem isGreedyMatching_swap {x y : List Char} {md : ℤ} {M : List (ℕ × ℕ)}
    (h : IsGreedyMatching x y md M) :
    IsGreedyMatching y x md (M.map Prod.swap) := by
  refine ⟨?_, ?_, ?_, ?_, ?_, ?_⟩
  · intro p hp
    obtain ⟨q, hq, rfl⟩ := List.mem_map.mp hp
    exact JEdge_swap (h.edges q hq)
  · intro p hp q hq hpq
    obtain ⟨p', hp', rfl⟩ := List.mem_map.mp hp
    obtain ⟨q', hq', rfl⟩ := List.mem_map.mp hq
    rw [h.injSnd p' hp' q' hq' hpq]
  · intro p hp q hq hpq
    obtain ⟨p', hp', rfl⟩ := List.mem_map.mp hp
    obtain ⟨q', hq', rfl⟩ := List.mem_map.mp hq
    rw [h.injFst p' hp' q' hq' hpq]
  · intro i j hij
    rcases h.maximal j i (JEdge_swap hij) with ⟨p, hp, hp1⟩ | ⟨p, hp, hp2⟩
    · exact Or.inr ⟨p.swap, List.mem_map_of_mem _ hp, hp1⟩
    · exact Or.inl ⟨p.swap, List.mem_map_of_mem _ hp, hp2⟩
  · intro p hp j hjlt hedge
    obtain ⟨p', hp', rfl⟩ := List.mem_map.mp hp
    obtain ⟨q, hq, hq1, hq2⟩ := h.firstI p' hp' j hjlt (JEdge_swap hedge)
    exact ⟨q.swap, List.mem_map_of_mem _ hq, hq2, hq1⟩
  · intro p hp i hilt hedge
    obtain ⟨p', hp', rfl⟩ := List.mem_map.mp hp
    obtain ⟨q, hq, hq1, hq2⟩ := h.firstJ p' hp' i hilt (JEdge_swap hedge)
    exact ⟨q.swap, List.mem_map_of_mem _ hq, hq2, hq1⟩

theorem jaroMd_comm (l1 l2 : ℕ) : jaroMd l1 l2 = jaroMd l2 l1 := by
  rw [jaroMd, jaroMd, Nat.max_comm]

theorem jaroPairs_isGreedyMatching (x y : List Char) :
    IsGreedyMatching x y (jaroMd x.length y.length) (jaroPairs x y) :=
  jaroRun_isGreedyMatching x y _

/-- The matched pair set is mirrored when the two strings are swapped. -/
theorem jaroPairs_swap (x y : List Char) (p : ℕ × ℕ) :
    p ∈ jaroPairs x y ↔ p.swap ∈ jaroPairs y x := by
  have h2' : IsGreedyMatching x y (jaroMd x.length y.length)
      ((jaroPairs y x).map Prod.swap) := by
    rw [jaroMd_comm]
    exact isGreedyMatching_swap (jaroPairs_isGreedyMatching y x)
  rw [isGreedyMatching_unique (jaroPairs_isGreedyMatching x y) h2' p]
  constructor
  · intro hp
    obtain ⟨q, hq, rfl⟩ := List.mem_map.mp hp
    simpa using hq
  · intro hp
    have := List.mem_map_of_mem Prod.swap hp
    simpa using this

/-! ## Symmetry of the similarity (claim C8) -/

theorem jaroPairs_pairwise_fst (x y : List Char) :
    List.Pairwise (fun p q : ℕ × ℕ => p.1 < q.1) (jaroPairs x y) :=
  (jaroRun_wf x y (jaroMd x.length y.length) x.length).2.1

theorem jaroPairs_nodup (x y : List Char) : (jaroPairs x y).Nodup := by
  refine (jaroPairs_pairwise_fst x y).imp ?_
  intro p q h he
  rw [he] at h
  exact lt_irrefl _ h

theorem jaroPairs_snd_nodup (x y : List Char) : ((jaroPairs x y).map Prod.snd).Nodup :=
  (jaroRun_wf x y (jaroMd x.length y.length) x.length).2.2

theorem mem_map_swap {l : List (ℕ × ℕ)} {p : ℕ × ℕ} :
    p ∈ l.map Prod.swap ↔ p.swap ∈ l := by
  constructor
  · intro hp
    obtain ⟨q, hq, rfl⟩ := List.mem_map.mp hp
    simpa using hq
  · intro hp
    have := List.mem_map_of_mem Prod.swap hp
    simpa using this

theorem jaroPairs_perm_swap (x y : List Char) :
    List.Perm (jaroPairs x y) ((jaroPairs y x).map Prod.swap) := by
  rw [List.perm_ext_iff_of_nodup (jaroPairs_nodup x y)
    ((jaroPairs_nodup y x).map Prod.swap_injective)]
  intro p
  rw [mem_map_swap]
  exact jaroPairs_swap x y p

theorem jaroPairs_length_comm (x y : List Char) :
    (jaroPairs x y).length = (jaroPairs y x).length := by
  have := (jaroPairs_perm_swap x y).length_eq
  simpa using this

theorem jaroPairs_fst_eq_sorted_snd (x y : List Char) :
    (jaroPairs x y).map Prod.fst =
      List.insertionSort (· ≤ ·) ((jaroPairs y x).map Prod.snd) := by
  have p1 : List.Perm ((jaroPairs x y).map Prod.fst) ((jaroPairs y x).map Prod.snd) := by
    have h := (jaroPairs_perm_swap x y).map Prod.fst
    rwa [List.map_map,
      show (Prod.fst ∘ Prod.swap : ℕ × ℕ → ℕ) = Prod.snd from rfl] at h
  have p2 : List.Perm ((jaroPairs x y).map Prod.fst)
      (List.insertionSort (· ≤ ·) ((jaroPairs y x).map Prod.snd)) :=
    p1.trans (List.perm_insertionSort _ _).symm
  exact List.eq_of_perm_of_sorted p2
    (List.pairwise_map.mpr ((jaroPairs_pairwise_fst x y).imp fun h => le_of_lt h))
    (List.sorted_insertionSort _ _)

theorem zip_filter_swap_length {α β : Type} (p : α × β → Bool) :
    ∀ (l1 : List α) (l2 : List β),
      ((l1.zip l2).filter p).length =
        ((l2.zip l1).filter fun q => p (q.2, q.1)).length := by
  intro l1
  induction l1 with
  | nil =>
    intro l2
    cases l2 <;> rfl
  | cons a l1 ih =>
    intro l2
    cases l2 with
    | nil => rfl
    | cons b l2 =>
      by_cases hp : p (a, b) <;>
        simp [List.zip_cons_cons, List.filter_cons, hp, ih l2]

theorem jaroTranspositionCount_comm (x y : List Char) :
    jaroTranspositionCount x y (jaroPairs x y) =
      jaroTranspositionCount y x (jaroPairs y x) := by
  rw [jaroTranspositionCount, jaroTranspositionCount,
    ← jaroPairs_fst_eq_sorted_snd y x, ← jaroPairs_fst_eq_sorted_snd x y]
  rw [zip_filter_swap_length]
  congr 1
  apply List.filter_congr
  intro q hq
  have hbc : ∀ a b : Option Char, (a == b) = (b == a) := by
    intro a b
    by_cases h : a = b
    · rw [h]
    · rw [beq_eq_false_iff_ne.mpr h, beq_eq_false_iff_ne.mpr fun hh => h hh.symm]
  rw [hbc]

theorem prefixLen4_comm : ∀ (a b : List Char) (f : ℕ), prefixLen4 a b f = prefixLen4 b a f := by
  intro a
  induction a with
  | nil =>
    intro b f
    cases b <;> cases f <;> rfl
  | cons c cs ih =>
    intro b f
    cases b with
    | nil => cases f <;> rfl
    | cons d ds =>
      cases f with
      | zero => rfl
      | succ f =>
        simp only [prefixLen4]
        by_cases h : c = d
        · rw [if_pos h, if_pos h.symm, ih ds f]
        · rw [if_neg h, if_neg fun hh => h hh.symm]

theorem jaroSimilarity_comm (s1 s2 : List Char) :
    jaroSimilarity s1 s2 = jaroSimilarity s2 s1 := by
  by_cases h1 : s1 = s2
  · rw [h1]
  · have h1' : ¬ s2 = s1 := fun h => h1 h.symm
    simp only [jaroSimilarity]
    rw [if_neg h1, if_neg h1']
    by_cases h2 : s1 = [] ∨ s2 = []
    · rw [if_pos h2, if_pos (Or.symm h2)]
    · rw [if_neg h2, if_neg fun h => h2 (Or.symm h)]
      rw [jaroPairs_length_comm (jsLower s1) (jsLower s2),
        jaroTranspositionCount_comm (jsLower s1) (jsLower s2)]
      by_cases h3 : (jaroPairs (jsLower s2) (jsLower s1)).length = 0
      · rw [if_pos h3, if_pos h3]
      · rw [if_neg h3, if_neg h3]
        ring

/-- C8: the similarity function is symmetric, for every scaling factor
(in particular the default `0.1`): `jaroWinkler s1 s2 p = jaroWinkler s2 s1 p`.
The swap changes nothing beyond the case-fold both sides already undergo. -/
theorem jaroWinkler_symm (s1 s2 : List Char) (p : ℚ) :
    jaroWinkler s1 s2 p = jaroWinkler s2 s1 p := by
  by_cases h1 : s1 = s2
  · rw [h1]
  · have h1' : ¬ s2 = s1 := fun h => h1 h.symm
    simp only [jaroWinkler]
    rw [if_neg h1, if_neg h1']
    by_cases h2 : s1 = [] ∨ s2 = []
    · rw [if_pos h2, if_pos (Or.symm h2)]
    · rw [if_neg h2, if_neg fun h => h2 (Or.symm h)]
      rw [jaroSimilarity_comm s1 s2, prefixLen4_comm (jsLower s1) (jsLower s2)]

/-! ## Identical strings after case-fold (claim C5) -/

theorem isGreedyMatching_diagonal (x : List Char) (md : ℤ) (hmd : 0 ≤ md) :
    IsGreedyMatching x x md ((List.range x.length).map fun i => (i, i)) := by
  refine ⟨?_, ?_, ?_, ?_, ?_, ?_⟩
  · intro p hp
    obtain ⟨i, hi, rfl⟩ := List.mem_map.mp hp
    have hix := List.mem_range.mp hi
    exact ⟨hix, hix, rfl, by omega, by omega⟩
  · intro p hp q hq hpq
    obtain ⟨i, hi, rfl⟩ := List.mem_map.mp hp
    obtain ⟨j, hj, rfl⟩ := List.mem_map.mp hq
    simp only at hpq
    rw [hpq]
  · intro p hp q hq hpq
    obtain ⟨i, hi, rfl⟩ := List.mem_map.mp hp
    obtain ⟨j, hj, rfl⟩ := List.mem_map.mp hq
    simp only at hpq
    rw [hpq]
  · intro i j hij
    exact Or.inl ⟨(i, i), List.mem_map_of_mem _ (List.mem_range.mpr hij.1), rfl⟩
  · intro p hp j hjlt hedge
    obtain ⟨i, hi, rfl⟩ := List.mem_map.mp hp
    exact ⟨(j, j), List.mem_map_of_mem _ (List.mem_range.mpr hedge.2.1), hjlt, rfl⟩
  · intro p hp i hilt hedge
    obtain ⟨i0, hi0, rfl⟩ := List.mem_map.mp hp
    exact ⟨(i, i), List.mem_map_of_mem _ (List.mem_range.mpr hedge.1), rfl, hilt⟩

theorem jaroMd_self_nonneg {n : ℕ} (hn : 2 ≤ n) : 0 ≤ jaroMd n n := by
  rw [jaroMd, Nat.max_self]
  omega

theorem jaroPairs_self_mem (x : List Char) (hx : 2 ≤ x.length) (p : ℕ × ℕ) :
    p ∈ jaroPairs x x ↔ p ∈ (List.range x.length).map fun i => (i, i) :=
  isGreedyMatching_unique (jaroPairs_isGreedyMatching x x)
    (isGreedyMatching_diagonal x _ (jaroMd_self_nonneg hx)) p

theorem diag_injective : Function.Injective (fun i : ℕ => (i, i)) := by
  intro a b h
  simpa using congrArg Prod.fst h

theorem jaroPairs_self_perm (x : List Char) (hx : 2 ≤ x.length) :
    List.Perm (jaroPairs x x) ((List.range x.length).map fun i => (i, i)) := by
  rw [List.perm_ext_iff_of_nodup (jaroPairs_nodup x x)
    ((List.nodup_range x.length).map diag_injective)]
  exact jaroPairs_self_mem x hx

theorem jaroPairs_self_length (x : List Char) (hx : 2 ≤ x.length) :
    (jaroPairs x x).length = x.length := by
  have := (jaroPairs_self_perm x hx).length_eq
  simpa using this

theorem jaroPairs_self_fst (x : List Char) (hx : 2 ≤ x.length) :
    (jaroPairs x x).map Prod.fst = List.range x.length := by
  have p1 : List.Perm ((jaroPairs x x).map Prod.fst) (List.range x.length) := by
    have := (jaroPairs_self_perm x hx).map Prod.fst
    simpa [List.map_map, Function.comp_def] using this
  have s1 : List.Sorted (· ≤ ·) ((jaroPairs x x).map Prod.fst) :=
    List.pairwise_map.mpr ((jaroPairs_pairwise_fst x x).imp fun h => le_of_lt h)
  have s2 : List.Sorted (· ≤ ·) (List.range x.length) :=
    (List.pairwise_lt_range _).imp fun h => le_of_lt h
  exact List.eq_of_perm_of_sorted p1 s1 s2

theorem jaroPairs_self_sorted_snd (x : List Char) (hx : 2 ≤ x.length) :
    List.insertionSort (· ≤ ·) ((jaroPairs x x).map Prod.snd) = List.range x.length := by
  have p1 : List.Perm (List.insertionSort (· ≤ ·) ((jaroPairs x x).map Prod.snd))
      (List.range x.length) := by
    refine (List.perm_insertionSort _ _).trans ?_
    have := (jaroPairs_self_perm x hx).map Prod.snd
    simpa [List.map_map, Function.comp_def] using this
  have s1 : List.Sorted (· ≤ ·) (List.insertionSort (· ≤ ·) ((jaroPairs x x).map Prod.snd)) :=
    List.sorted_insertionSort _ _
  have s2 : List.Sorted (· ≤ ·) (List.range x.length) :=
    (List.pairwise_lt_range _).imp fun h => le_of_lt h
  exact List.eq_of_perm_of_sorted p1 s1 s2

theorem zip_self_eq_map {α : Type} (l : List α) : l.zip l = l.map fun a => (a, a) := by
  induction l with
  | nil => rfl
  | cons a l ih => simp [List.zip_cons_cons, ih]

theorem jaroTranspositionCount_self (x : List Char) (hx : 2 ≤ x.length) :
    jaroTranspositionCount x x (jaroPairs x x) = 0 := by
  rw [jaroTranspositionCount, jaroPairs_self_fst x hx, jaroPairs_self_sorted_snd x hx,
    zip_self_eq_map]
  rw [List.length_eq_zero]
  rw [List.filter_eq_nil_iff]
  intro q hq
  obtain ⟨i, hi, rfl⟩ := List.mem_map.mp hq
  simp

/-- C5 (amended): a pair of strings that are identical after lower-casing
yields base similarity (and hence prefix-boosted similarity) exactly 1, for
every scaling factor, provided the strings are exactly equal or have length
at least 2.  (A pair of length-1 strings that differ only in case falls into
the negative alignment window and scores 0, see the counterexample.) -/
theorem jaroWinkler_lower_eq_one (s1 s2 : List Char) (hlow : jsLower s1 = jsLower s2)
    (h : s1 = s2 ∨ 2 ≤ s1.length) :
    jaroSimilarity s1 s2 = 1 ∧ ∀ p : ℚ, jaroWinkler s1 s2 p = 1 := by
  by_cases heq : s1 = s2
  · constructor
    · rw [jaroSimilarity, if_pos heq]
    · intro p
      rw [jaroWinkler, if_pos heq]
  · have hlen2 : 2 ≤ s1.length := h.resolve_left heq
    have hlen : s1.length = s2.length := by
      have := congrArg List.length hlow
      simpa [jsLower] using this
    have hne1 : s1 ≠ [] := by
      intro h0
      rw [h0] at hlen2
      simp at hlen2
    have hne2 : s2 ≠ [] := by
      intro h0
      rw [h0] at hlen
      simp only [List.length_nil] at hlen
      omega
    have hx2 : 2 ≤ (jsLower s2).length := by
      simp only [jsLower, List.length_map]
      omega
    have hjaro : jaroSimilarity s1 s2 = 1 := by
      have hxl : (jsLower s2).length = s2.length := by simp [jsLower]
      simp only [jaroSimilarity]
      rw [if_neg heq, if_neg (by push_neg; exact ⟨hne1, hne2⟩), hlow,
        jaroPairs_self_length _ hx2, jaroTranspositionCount_self _ hx2, hxl]
      have hm0 : ¬ (s2.length = 0) := by omega
      rw [if_neg hm0, hlen]
      have hn : ((s2.length : ℚ)) ≠ 0 := by
        have : (0:ℕ) < s2.length := by omega
        exact_mod_cast Nat.pos_iff_ne_zero.mp this
      field_simp
      norm_num
    constructor
    · exact hjaro
    · intro p
      simp only [jaroWinkler]
      rw [if_neg heq, if_neg (by push_neg; exact ⟨hne1, hne2⟩), hjaro]
      ring

/-- Witness for C5 at the concrete pair "AB" and "ab" (length 2, identical
after lower-casing but not equal). -/
theorem jaroWinkler_lower_eq_one_witness :
    jaroSimilarity wAB wLowerAb = 1 ∧ ∀ p : ℚ, jaroWinkler wAB wLowerAb p = 1 :=
  jaroWinkler_lower_eq_one wAB wLowerAb (by decide) (Or.inr (by decide))

/-- C5 counterexample: "A" and "a" are identical after lower-casing, yet the
base similarity is 0 (the alignment window of two length-1 strings is
negative, so no character can match) and the prefix-boosted similarity with
the default scaling factor is 1/10, not 1. -/
theorem jaroWinkler_case_counterexample :
    jsLower wUpperA = jsLower wLowerA ∧ jaroSimilarity wUpperA wLowerA = 0 ∧
      jaroWinkler wUpperA wLowerA (1 / 10) = 1 / 10 := by
  have h0 : jaroSimilarity wUpperA wLowerA = 0 := by
    simp only [jaroSimilarity]
    rw [if_neg (by decide), if_neg (by decide), if_pos (by decide)]
  refine ⟨by decide, h0, ?_⟩
  simp only [jaroWinkler]
  rw [if_neg (by decide), if_neg (by decide), h0,
    show prefixLen4 (jsLower wUpperA) (jsLower wLowerA) 4 = 1 from by decide]
  norm_num

/-! ## Bounds (claim C7) -/

theorem nodup_length_le {l : List ℕ} (hnd : l.Nodup) {n : ℕ} (hlt : ∀ a ∈ l, a < n) :
    l.length ≤ n := by
  classical
  calc l.length = l.toFinset.card := (List.toFinset_card_of_nodup hnd).symm
    _ ≤ (Finset.range n).card := by
        refine Finset.card_le_card ?_
        intro a ha
        exact Finset.mem_range.mpr (hlt a (List.mem_toFinset.mp ha))
    _ = n := Finset.card_range n

theorem jaroPairs_length_le_left (x y : List Char) :
    (jaroPairs x y).length ≤ x.length := by
  have h1 : ((jaroPairs x y).map Prod.fst).Nodup := by
    refine List.Pairwise.imp ?_ (List.pairwise_map.mpr (jaroPairs_pairwise_fst x y))
    intro a b h
    exact Nat.ne_of_lt h
  have h2 : ∀ a ∈ (jaroPairs x y).map Prod.fst, a < x.length := by
    intro a ha
    obtain ⟨p, hp, rfl⟩ := List.mem_map.mp ha
    exact ((jaroRun_wf x y (jaroMd x.length y.length) x.length).1 p hp).1
  have := nodup_length_le h1 h2
  simpa using this

theorem jaroPairs_length_le_right (x y : List Char) :
    (jaroPairs x y).length ≤ y.length := by
  have h2 : ∀ a ∈ (jaroPairs x y).map Prod.snd, a < y.length := by
    intro a ha
    obtain ⟨p, hp, rfl⟩ := List.mem_map.mp ha
    exact ((jaroRun_wf x y (jaroMd x.length y.length) x.length).1 p hp).2.1
  have := nodup_length_le (jaroPairs_snd_nodup x y) h2
  simpa using this

theorem jaroTranspositionCount_le (x y : List Char) :
    jaroTranspositionCount x y (jaroPairs x y) ≤ (jaroPairs x y).length := by
  rw [jaroTranspositionCount]
  refine le_trans (List.length_filter_le _ _) ?_
  rw [List.length_zip]
  refine le_trans (min_le_left _ _) ?_
  rw [List.length_map]

theorem jaroSimilarity_bounds (s1 s2 : List Char) :
    0 ≤ jaroSimilarity s1 s2 ∧ jaroSimilarity s1 s2 ≤ 1 := by
  simp only [jaroSimilarity]
  split_ifs with h1 h2 h3
  · norm_num
  · norm_num
  · norm_num
  · push_neg at h2
    obtain ⟨hne1, hne2⟩ := h2
    have hl1 : 0 < s1.length := List.length_pos.mpr hne1
    have hl2 : 0 < s2.length := List.length_pos.mpr hne2
    have hm0 : 0 < (jaroPairs (jsLower s1) (jsLower s2)).length := Nat.pos_of_ne_zero h3
    have hml : (jaroPairs (jsLower s1) (jsLower s2)).length ≤ s1.length := by
      have := jaroPairs_length_le_left (jsLower s1) (jsLower s2)
      simpa [jsLower] using this
    have hmr : (jaroPairs (jsLower s1) (jsLower s2)).length ≤ s2.length := by
      have := jaroPairs_length_le_right (jsLower s1) (jsLower s2)
      simpa [jsLower] using this
    have htm := jaroTranspositionCount_le (jsLower s1) (jsLower s2)
    set m := (jaroPairs (jsLower s1) (jsLower s2)).length with hm
    set t := jaroTranspositionCount (jsLower s1) (jsLower s2)
      (jaroPairs (jsLower s1) (jsLower s2)) with ht
    have hmq : (0:ℚ) < (m:ℚ) := by exact_mod_cast hm0
    have h1q : (0:ℚ) < (s1.length:ℚ) := by exact_mod_cast hl1
    have h2q : (0:ℚ) < (s2.length:ℚ) := by exact_mod_cast hl2
    have hmlq : (m:ℚ) ≤ (s1.length:ℚ) := by exact_mod_cast hml
    have hmrq : (m:ℚ) ≤ (s2.length:ℚ) := by exact_mod_cast hmr
    have htq : (t:ℚ) ≤ (m:ℚ) := by exact_mod_cast htm
    have ht0 : (0:ℚ) ≤ (t:ℚ) := by positivity
    have e1 : (0:ℚ) ≤ (m:ℚ)/(s1.length:ℚ) := by positivity
    have e2 : (0:ℚ) ≤ (m:ℚ)/(s2.length:ℚ) := by positivity
    have e3 : (0:ℚ) ≤ ((m:ℚ) - (t:ℚ)/2)/(m:ℚ) := by
      apply div_nonneg _ (le_of_lt hmq)
      linarith
    have f1 : (m:ℚ)/(s1.length:ℚ) ≤ 1 := (div_le_one h1q).mpr hmlq
    have f2 : (m:ℚ)/(s2.length:ℚ) ≤ 1 := (div_le_one h2q).mpr hmrq
    have f3 : ((m:ℚ) - (t:ℚ)/2)/(m:ℚ) ≤ 1 := by
      rw [div_le_one hmq]
      linarith
    constructor <;> linarith

theorem prefixLen4_le : ∀ (a b : List Char) (f : ℕ), prefixLen4 a b f ≤ f := by
  intro a
  induction a with
  | nil =>
    intro b f
    cases b <;> cases f <;> simp [prefixLen4]
  | cons c cs ih =>
    intro b f
    cases b with
    | nil => cases f <;> simp [prefixLen4]
    | cons d ds =>
      cases f with
      | zero => simp [prefixLen4]
      | succ f =>
        simp only [prefixLen4]
        split_ifs
        · have := ih ds f
          omega
        · omega

theorem jaroWinkler_bounds (s1 s2 : List Char) :
    0 ≤ jaroWinkler s1 s2 (1 / 10) ∧ jaroWinkler s1 s2 (1 / 10) ≤ 1 := by
  simp only [jaroWinkler]
  split_ifs with h1 h2
  · norm_num
  · norm_num
  · obtain ⟨hj0, hj1⟩ := jaroSimilarity_bounds s1 s2
    have hple : (prefixLen4 (jsLower s1) (jsLower s2) 4 : ℚ) ≤ 4 := by
      exact_mod_cast prefixLen4_le (jsLower s1) (jsLower s2) 4
    have hp0 : (0:ℚ) ≤ (prefixLen4 (jsLower s1) (jsLower s2) 4 : ℚ) := by positivity
    constructor
    · nlinarith [mul_nonneg (mul_nonneg hp0 (by norm_num : (0:ℚ) ≤ 1/10))
        (by linarith : (0:ℚ) ≤ 1 - jaroSimilarity s1 s2)]
    · nlinarith [mul_nonneg (by linarith : (0:ℚ) ≤ 1 - jaroSimilarity s1 s2)
        (by linarith : (0:ℚ) ≤ 1 - (prefixLen4 (jsLower s1) (jsLower s2) 4 : ℚ) * (1/10))]

theorem jsRound_weighted_bounds {ws tw : ℚ} (h0 : 0 ≤ ws) (h1 : ws ≤ tw) :
    0 ≤ jsRound (if tw > 0 then ws / tw * 100 else 0) ∧
      jsRound (if tw > 0 then ws / tw * 100 else 0) ≤ 100 := by
  split_ifs with h
  · have hq0 : 0 ≤ ws / tw * 100 := by positivity
    have hdiv : ws / tw ≤ 1 := (div_le_one h).mpr h1
    have hq1 : ws / tw * 100 ≤ 100 := by linarith
    exact ⟨jsRound_nonneg hq0, jsRound_le_hundred hq1⟩
  · rw [jsRound_zero]
    norm_num

theorem calculateNameSimilarity_bounds (sn dn : PersonName) :
    0 ≤ calculateNameSimilarity sn dn ∧ calculateNameSimilarity sn dn ≤ 100 := by
  have hl := jaroWinkler_bounds (normalizeName sn.lastName) (normalizeName dn.lastName)
  have hf := jaroWinkler_bounds (normalizeName sn.firstName) (normalizeName dn.firstName)
  have hm := jaroWinkler_bounds (normalizeName sn.middleName) (normalizeName dn.middleName)
  simp only [calculateNameSimilarity]
  by_cases hM : normalizeName sn.middleName ≠ [] ∧ normalizeName dn.middleName ≠ []
  · rw [if_pos hM]
    simp only [Option.isSome_some, if_true]
    refine jsRound_weighted_bounds ?_ ?_
    · split_ifs <;>
        linarith [hl.1, hl.2, hf.1, hf.2, hm.1, hm.2]
    · split_ifs <;>
        linarith [hl.1, hl.2, hf.1, hf.2, hm.1, hm.2]
  · rw [if_neg hM]
    simp only [Option.isSome_none, Bool.false_eq_true, if_false]
    refine jsRound_weighted_bounds ?_ ?_
    · split_ifs <;>
        linarith [hl.1, hl.2, hf.1, hf.2, hm.1, hm.2]
    · split_ifs <;>
        linarith [hl.1, hl.2, hf.1, hf.2, hm.1, hm.2]

theorem calculateAddressSimilarity_bounds (sa sb : AddressParts) :
    0 ≤ calculateAddressSimilarity sa sb ∧ calculateAddressSimilarity sa sb ≤ 100 := by
  have h1 := jaroWinkler_bounds (normalizeName sa.country) (normalizeName sb.country)
  have h2 := jaroWinkler_bounds (normalizeName sa.state) (normalizeName sb.state)
  have h3 := jaroWinkler_bounds (normalizeName sa.city) (normalizeName sb.city)
  have h4 := jaroWinkler_bounds (normalizeName sa.address) (normalizeName sb.address)
  simp only [calculateAddressSimilarity, apply_ite (Prod.fst : ℚ × ℕ → ℚ),
    apply_ite (Prod.snd : ℚ × ℕ → ℕ)]
  split_ifs <;>
    first
      | (refine ⟨jsRound_nonneg ?_, jsRound_le_hundred ?_⟩ <;>
          linarith [h1.1, h1.2, h2.1, h2.2, h3.1, h3.2, h4.1, h4.2])
      | exact ⟨le_refl 0, by norm_num⟩

theorem calculateMatchScore_bounds (sp : SearchParams) (e : SDNEntry) :
    (0 ≤ (calculateMatchScore sp e).nameScore ∧
      (calculateMatchScore sp e).nameScore ≤ 100) ∧
    (0 ≤ (calculateMatchScore sp e).addressScore ∧
      (calculateMatchScore sp e).addressScore ≤ 100) ∧
    (0 ≤ (calculateMatchScore sp e).score ∧ (calculateMatchScore sp e).score ≤ 100) := by
  have hnn : 0 ≤ (calculateMatchScore sp e).nameScore ∧
      (calculateMatchScore sp e).nameScore ≤ 100 := by
    rw [calculateMatchScore_nameScore]
    exact calculateNameSimilarity_bounds _ _
  have haddr : 0 ≤ (calculateMatchScore sp e).addressScore ∧
      (calculateMatchScore sp e).addressScore ≤ 100 := by
    rw [calculateMatchScore_addressScore]
    split_ifs with h
    · exact calculateAddressSimilarity_bounds _ _
    · norm_num
  refine ⟨hnn, haddr, ?_, min_le_left _ _⟩
  rw [calculateMatchScore_score]
  refine le_min (by norm_num) (jsRound_nonneg ?_)
  have c1 : (0:ℚ) ≤ ((calculateMatchScore sp e).nameScore : ℚ) := by exact_mod_cast hnn.1
  have c2 : (0:ℚ) ≤ ((calculateMatchScore sp e).addressScore : ℚ) := by
    exact_mod_cast haddr.1
  have c3 : (0:ℚ) ≤ (if (calculateMatchScore sp e).dobMatch then (20:ℚ) else 0) := by
    split_ifs <;> norm_num
  have c4 : (0:ℚ) ≤ (if (calculateMatchScore sp e).idMatch then (5:ℚ) else 0) := by
    split_ifs <;> norm_num
  linarith [c1, c2, c3, c4]

/-- C7 (amended): `jaroWinkler` with the default scaling factor returns a value
in `[0, 1]`, and an empty string on either side yields exactly 0 whenever the
two strings are not both empty (two empty strings are equal and score 1, see
the counterexample); the name score, address score, and overall score returned
by the scorer lie in `[0, 100]`, regardless of input length or content. -/
theorem similarity_and_scores_bounded (s1 s2 : List Char) (sp : SearchParams) (e : SDNEntry) :
    (0 ≤ jaroWinkler s1 s2 (1 / 10) ∧ jaroWinkler s1 s2 (1 / 10) ≤ 1) ∧
    (¬(s1 = [] ∧ s2 = []) → (s1 = [] ∨ s2 = []) → jaroWinkler s1 s2 (1 / 10) = 0) ∧
    (0 ≤ (calculateMatchScore sp e).nameScore ∧
      (calculateMatchScore sp e).nameScore ≤ 100) ∧
    (0 ≤ (calculateMatchScore sp e).addressScore ∧
      (calculateMatchScore sp e).addressScore ≤ 100) ∧
    (0 ≤ (calculateMatchScore sp e).score ∧ (calculateMatchScore sp e).score ≤ 100) := by
  refine ⟨jaroWinkler_bounds s1 s2, ?_, calculateMatchScore_bounds sp e⟩
  intro hboth hor
  have hne : s1 ≠ s2 := by
    intro he
    rcases hor with h | h
    · refine hboth ⟨h, ?_⟩
      rw [← he]
      exact h
    · refine hboth ⟨?_, h⟩
      rw [he]
      exact h
  rw [jaroWinkler, if_neg hne, if_pos hor]

/-- Witness for C7's empty-side clause at a nonempty-versus-empty pair. -/
theorem similarity_and_scores_bounded_witness :
    jaroWinkler wLowerA ([] : List Char) (1 / 10) = 0 :=
  (similarity_and_scores_bounded wLowerA [] wQuery wEntryJon).2.1 (by decide) (Or.inr rfl)

/-- C7 counterexample: two empty strings are equal, so the equality guard of
`jaroWinkler` fires first and the result is 1, not 0, refuting the clause
that an empty string on either side always yields exactly 0. -/
theorem jaroWinkler_empty_empty_counterexample :
    jaroWinkler ([] : List Char) ([] : List Char) (1 / 10) = 1 ∧
      (([] : List Char) = [] ∨ ([] : List Char) = []) := by
  constructor
  · rw [jaroWinkler, if_pos rfl]
  · exact Or.inl rfl

end OFAC
